import Mathlib

/-!
Shallow embedding of `src/core/crypto/ecdsa.cpp` (OpenThread, namespace
`ot::Crypto::Ecdsa`), following the full-mbedtls build configuration (the
`#else` branches of the `MBEDTLS_USE_TINYCRYPT` conditionals, which are the
paths the specification describes).

Bytes are modelled as natural numbers, buffers as `List Nat`, and mbedtls
multi-precision integers (`mbedtls_mpi`) as `Nat`.  The external mbedtls
elliptic-curve backend is not part of the excerpt; it is modelled from the
spec by the `Backend` structure below: the curve group generated by the base
point G has prime order `p`, a point is represented by its discrete logarithm
(a scalar in `ZMod p`), `xcoord k` is the x-coordinate of k·G reduced mod p,
and the scalar equations of ECDSA over those data are spelled out in
`ecdsaSignCore` / `ecdsaVerifyScalars`.
-/

namespace Ecdsa

/-- Error codes of the OpenThread core (`ot::Error`) used by ecdsa.cpp.
The spec's taxonomy maps onto them as: CryptoBackendError = `kErrorFailed`,
KeyParseError = `kErrorParse`, InvalidArgument = `kErrorInvalidArgs`,
BufferTooSmall = `kErrorNoBufs`, SignatureInvalid = `kErrorSecurity`. -/
inductive Error where
  | kErrorNone
  | kErrorFailed
  | kErrorParse
  | kErrorInvalidArgs
  | kErrorNoBufs
  | kErrorSecurity
  deriving DecidableEq

/-- Result of an operation returning `ot::Error` together with an output
written on success (a C++ out-parameter). -/
inductive OtResult (α : Type) where
  | err (e : Error)
  | ok (v : α)
  deriving DecidableEq

/-- Width of a P-256 field element / signature half in bytes
(`P256::kMpiSize` = 32). -/
def kMpiSize : Nat := 32

/-- Cap of the fixed internal DER buffer of `P256::KeyPair`
(`kMaxDerSize`, declared in ecdsa.hpp which is outside the excerpt; the
spec only needs it to be a fixed cap). -/
def kMaxDerSize : Nat := 125

/-- The mbedtls error code returned by `mbedtls_mpi_write_binary` when the
value does not fit the supplied buffer. -/
def MBEDTLS_ERR_MPI_BUFFER_TOO_SMALL : Int := -8

/-- A generic nonzero mbedtls ECP error code, standing for a failed
`mbedtls_ecdsa_sign_det_ext` call. -/
def MBEDTLS_ERR_ECP_BAD_INPUT_DATA : Int := -20352

/-- The mbedtls error code returned by `mbedtls_ecdsa_verify` when the
signature does not verify. -/
def MBEDTLS_ERR_ECP_VERIFY_FAILED : Int := -19968

/-- Modelled from the spec: `MbedTls::MapError` (crypto/mbedtls.cpp, not part
of this excerpt).  Section 7 of the spec describes the propagation policy:
every backend-specific nonzero error code is folded at the boundary into the
closed taxonomy, with opaque backend causes all becoming the one
CryptoBackendError kind (`kErrorFailed`); a zero code is no error. -/
def MapError (aMbedTlsError : Int) : Error :=
  if aMbedTlsError = 0 then .kErrorNone else .kErrorFailed

/-- Big-endian encoding of `n` into exactly `width` bytes, truncating the
value to its low `width` bytes; this is the buffer `mbedtls_mpi_write_binary`
produces when the value fits. -/
def natToBytesBE : Nat → Nat → List Nat
  | 0, _ => []
  | width + 1, n => natToBytesBE width (n / 256) ++ [n % 256]

/-- Value of a big-endian byte buffer (`mbedtls_mpi_read_binary`, which
always succeeds and returns the encoded magnitude). -/
def mpiReadBinary (aBuf : List Nat) : Nat :=
  aBuf.foldl (fun acc b => acc * 256 + b) 0

/-- Helper for `mpiSize`, structurally recursive on a fuel argument. -/
def mpiSizeAux : Nat → Nat → Nat
  | 0, _ => 0
  | fuel + 1, n => if n = 0 then 0 else mpiSizeAux fuel (n / 256) + 1

/-- Number of bytes of the natural binary representation of `n`
(`mbedtls_mpi_size`): 0 for 0, otherwise the minimal `k` with `n < 256 ^ k`. -/
def mpiSize (n : Nat) : Nat := mpiSizeAux n n

/-- Behaviour of `mbedtls_mpi_write_binary X buf width`: writes the value
big-endian, left-zero-padded, into exactly `width` bytes, failing with
`MBEDTLS_ERR_MPI_BUFFER_TOO_SMALL` when the value needs more than `width`
bytes. -/
def mpiWriteBinary (width n : Nat) : Option (List Nat) :=
  if mpiSize n ≤ width then some (natToBytesBE width n) else none

/-- The mbedtls_pk key types this code distinguishes: `MBEDTLS_PK_ECKEY`
versus any other parsed key type (represented by `rsa`). -/
inductive PkType where
  | eckey
  | rsa
  deriving DecidableEq

/-- Modelled from the spec: a key parsed out of a PEM/DER container by the
external `mbedtls_pk_parse_key` collaborator — a key type plus, for EC keys,
the private scalar d. -/
structure PkKey (p : Nat) where
  ktype : PkType
  d : ZMod p
  deriving DecidableEq

/-- Modelled from the spec: the external elliptic-curve backend (mbedtls, not
part of the excerpt).  `p` is the (prime, for the real curve) order of the
group generated by the base point G; points of that group are represented by
their discrete logarithms.  `xcoord k` is the x-coordinate of k·G reduced
mod p; `coords e` are the affine coordinates of e·G as magnitudes;
`pointOfCoords` rebuilds a point from affine coordinates (the Q/X, Q/Y, Z=1
reconstruction of `Verify`); `parseKey` is `mbedtls_pk_parse_key`;
`writeKeyDer` is the DER payload `mbedtls_pk_write_key_der` emits for a
private scalar; `genKey` draws a fresh private scalar from a prng seed
(`mbedtls_ecp_gen_key`); `nonce d h` is the deterministic RFC 6979 nonce of
key and message used by `mbedtls_ecdsa_sign_det_ext`; `rngNonce state` is
the nonce the randomized `mbedtls_ecdsa_sign` draws from the prng state.
Only data lives here; the coherence facts the theorems need are stated as
their hypotheses. -/
structure Backend where
  p : Nat
  xcoord : ZMod p → ZMod p
  coords : ZMod p → Nat × Nat
  pointOfCoords : Nat × Nat → Option (ZMod p)
  parseKey : List Nat → Option (PkKey p)
  writeKeyDer : ZMod p → List Nat
  genKey : Nat → ZMod p
  nonce : ZMod p → Nat → ZMod p
  rngNonce : Nat → ZMod p

/-- Computable modular inverse by Fermat: for prime `p` and `a ≠ 0` this is
the field inverse of `a` in `ZMod p` (the backend's modular inversion). -/
def zinv (p : Nat) (a : ZMod p) : ZMod p := a ^ (p - 2)

/-- Modelled from the spec (glossary and section 4.3): the scalar equations
of ECDSA signing with nonce `k` — r is the x-coordinate of k·G mod p,
s = k⁻¹(h + r·d) mod p, failing (internally retried / rejected by mbedtls)
when the nonce, r, or s is zero.  Returns the magnitudes of r and s. -/
def ecdsaSignCore (B : Backend) (d : ZMod B.p) (aHash : Nat) (k : ZMod B.p) :
    Option (Nat × Nat) :=
  if k = 0 then none
  else
    let r := B.xcoord k
    if r = 0 then none
    else
      let s := zinv B.p k * ((aHash : ZMod B.p) + r * d)
      if s = 0 then none
      else some (r.val, s.val)

/-- Reduction of `ecdsaSignCore` modelling `mbedtls_ecdsa_sign_det_ext`: the
nonce is derived deterministically from key and message (RFC 6979); the prng
argument is used only for blinding and does not influence the result, so it
is ignored here. -/
def ecdsaSignDetExt (B : Backend) (d : ZMod B.p) (aHash : Nat) (rng : Nat) :
    Option (Nat × Nat) :=
  ecdsaSignCore B d aHash (B.nonce d aHash)

/-- Reduction of `ecdsaSignCore` modelling the randomized
`mbedtls_ecdsa_sign`: the nonce is drawn from the supplied prng state. -/
def ecdsaSignRand (B : Backend) (d : ZMod B.p) (aHash : Nat) (rng : Nat) :
    Option (Nat × Nat) :=
  ecdsaSignCore B d aHash (B.rngNonce rng)

/-- Modelled from the spec (section 4.4): the check `mbedtls_ecdsa_verify`
performs on the reconstructed scalars — r and s must lie in [1, p-1], and
the x-coordinate of (h·s⁻¹)·G + (r·s⁻¹)·Q must equal r mod p. -/
def ecdsaVerifyScalars (B : Backend) (Q : ZMod B.p) (aHash r s : Nat) : Bool :=
  if r = 0 ∨ B.p ≤ r ∨ s = 0 ∨ B.p ≤ s then false
  else
    let w := zinv B.p (s : ZMod B.p)
    let u1 := (aHash : ZMod B.p) * w
    let u2 := (r : ZMod B.p) * w
    decide (B.xcoord (u1 + u2 * Q) = (r : ZMod B.p))

/-- Full verification check of `mbedtls_ecdsa_verify`: rebuild the public
point Q from the affine coordinates read out of the `PublicKey` buffer
(failing — hence rejecting — when the coordinates are not a point of the
group), then check the scalar equation. -/
def ecdsaVerifyPoint (B : Backend) (X Y aHash r s : Nat) : Bool :=
  match B.pointOfCoords (X, Y) with
  | none => false
  | some Q => ecdsaVerifyScalars B Q aHash r s

/-- `P256::KeyPair`: owns the DER encoding of the private key
(`mDerBytes` together with `mDerLength`, modelled as one list of
`mDerLength` bytes). -/
structure P256.KeyPair where
  mDerBytes : List Nat
  deriving DecidableEq

/-- `P256::PublicKey`: 64 bytes, the two big-endian affine coordinates. -/
structure P256.PublicKey where
  mData : List Nat
  deriving DecidableEq

/-- `P256::Signature`: the two fixed-width big-endian halves R and S
(`mShared.mMpis.mR` / `mShared.mMpis.mS`). -/
structure P256.Signature where
  mR : List Nat
  mS : List Nat
  deriving DecidableEq

/-- `P256::KeyPair::Generate` (ecdsa.cpp lines 60-92, mbedtls path).
`setupRet` and `genRet` are the return codes of `mbedtls_pk_setup` and
`mbedtls_ecp_gen_key`; any nonzero code exits and is folded through
`MbedTls::MapError`.  On success the DER encoding of the generated key is
written into the fixed buffer (`mbedtls_pk_write_key_der`, which fails with
a negative code unless `0 < length ≤ cap`) and moved to the buffer front. -/
def P256.KeyPair.Generate (B : Backend) (setupRet genRet : Int) (seed : Nat) :
    OtResult P256.KeyPair :=
  if setupRet ≠ 0 then .err (MapError setupRet)
  else if genRet ≠ 0 then .err (MapError genRet)
  else
    let der := B.writeKeyDer (B.genKey seed)
    if 0 < der.length ∧ der.length ≤ kMaxDerSize then .ok ⟨der⟩
    else .err (MapError MBEDTLS_ERR_MPI_BUFFER_TOO_SMALL)

/-- `P256::KeyPair::Parse` (lines 94-111): a failed `mbedtls_pk_setup` maps
to `kErrorFailed`; a failed `mbedtls_pk_parse_key` on the stored DER bytes
maps to `kErrorParse`. -/
def P256.KeyPair.Parse (B : Backend) (setupOk : Bool) (kp : P256.KeyPair) :
    OtResult (PkKey B.p) :=
  if setupOk then
    match B.parseKey kp.mDerBytes with
    | none => .err .kErrorParse
    | some key => .ok key
  else .err .kErrorFailed

/-- `P256::KeyPair::GetPublicKey` (lines 113-144, mbedtls path): parse the
stored key, then write the two affine coordinates of Q fixed-width
(`mbedtls_mpi_write_binary`, 32 bytes each); a failed write is folded
through `MbedTls::MapError`. -/
def P256.KeyPair.GetPublicKey (B : Backend) (setupOk : Bool)
    (kp : P256.KeyPair) : OtResult P256.PublicKey :=
  match P256.KeyPair.Parse B setupOk kp with
  | .err e => .err e
  | .ok key =>
    match mpiWriteBinary kMpiSize (B.coords key.d).1 with
    | none => .err (MapError MBEDTLS_ERR_MPI_BUFFER_TOO_SMALL)
    | some xBytes =>
      match mpiWriteBinary kMpiSize (B.coords key.d).2 with
      | none => .err (MapError MBEDTLS_ERR_MPI_BUFFER_TOO_SMALL)
      | some yBytes => .ok ⟨xBytes ++ yBytes⟩

/-- Outcome of the fixed-width signing path: either the `OT_ASSERT` fires
(a fatal abort, not a returned error), or an error is returned, or the
signature was written. -/
inductive SignOutcome where
  | assertViolation
  | err (e : Error)
  | ok
  deriving DecidableEq

/-- Lines 193-199 of `P256::KeyPair::Sign`: `OT_ASSERT(mbedtls_mpi_size(&r)
<= kMpiSize)`, then the fixed-width writes of r and s into the signature
output, each checked by `VerifyOrExit(ret == 0, error = MapError(ret))`.
The signature out-parameter is threaded explicitly; note that if the s write
fails, the r half has already been written. -/
def writeSignatureMpis (r s : Nat) (aSignature : P256.Signature) :
    SignOutcome × P256.Signature :=
  if mpiSize r ≤ kMpiSize then
    match mpiWriteBinary kMpiSize r with
    | none => (.err (MapError MBEDTLS_ERR_MPI_BUFFER_TOO_SMALL), aSignature)
    | some rBytes =>
      match mpiWriteBinary kMpiSize s with
      | none => (.err (MapError MBEDTLS_ERR_MPI_BUFFER_TOO_SMALL),
                 { aSignature with mR := rBytes })
      | some sBytes => (.ok, { mR := rBytes, mS := sBytes })
  else (.assertViolation, aSignature)

/-- `P256::KeyPair::Sign` (lines 146-212, mbedtls path): parse the stored
key, sign the 32-byte digest deterministically
(`mbedtls_ecdsa_sign_det_ext`; a nonzero code is folded through
`MbedTls::MapError`), then assert and write the fixed-width R and S.  The
caller's signature out-parameter is threaded and returned. -/
def P256.KeyPair.Sign (B : Backend) (setupOk : Bool) (kp : P256.KeyPair)
    (aHash : Nat) (rng : Nat) (aSignature : P256.Signature) :
    SignOutcome × P256.Signature :=
  match P256.KeyPair.Parse B setupOk kp with
  | .err e => (.err e, aSignature)
  | .ok key =>
    match ecdsaSignDetExt B key.d aHash rng with
    | none => (.err (MapError MBEDTLS_ERR_ECP_BAD_INPUT_DATA), aSignature)
    | some (r, s) => writeSignatureMpis r s aSignature

/-- Control-flow skeleton of `P256::PublicKey::Verify` (lines 233-261): the
seven backend calls in source order (group load, read X, read Y, set Z=1,
read R, read S, `mbedtls_ecdsa_verify`).  Every nonzero code before the
final verification call is folded through `MbedTls::MapError`; a nonzero
code of the verification call itself maps to `kErrorSecurity`. -/
def VerifyFlow (grpLoadRet readXRet readYRet setZRet readRRet readSRet
    verifyRet : Int) : Error :=
  if grpLoadRet ≠ 0 then MapError grpLoadRet
  else if readXRet ≠ 0 then MapError readXRet
  else if readYRet ≠ 0 then MapError readYRet
  else if setZRet ≠ 0 then MapError setZRet
  else if readRRet ≠ 0 then MapError readRRet
  else if readSRet ≠ 0 then MapError readSRet
  else if verifyRet ≠ 0 then .kErrorSecurity
  else .kErrorNone

/-- `P256::PublicKey::Verify` (lines 214-271, mbedtls path): read the two
coordinates out of the 64-byte key buffer and the two scalars out of the
signature (`mbedtls_mpi_read_binary`, which returns the magnitudes and —
allocation aside — cannot fail, so those return codes are 0), then run the
backend verification; its nonzero code maps to `kErrorSecurity` through
`VerifyFlow`. -/
def P256.PublicKey.Verify (B : Backend) (pub : P256.PublicKey) (aHash : Nat)
    (aSignature : P256.Signature) : Error :=
  let X := mpiReadBinary (pub.mData.take kMpiSize)
  let Y := mpiReadBinary (pub.mData.drop kMpiSize)
  let r := mpiReadBinary aSignature.mR
  let s := mpiReadBinary aSignature.mS
  VerifyFlow 0 0 0 0 0 0
    (if ecdsaVerifyPoint B X Y aHash r s then 0 else MBEDTLS_ERR_ECP_VERIFY_FAILED)

/-- Null-or-keypair result of `mbedtls_pk_ec`: the EC keypair embedded in a
pk context whose type is an EC key, and null (`none`) otherwise — in
particular for a freshly (re)initialized context, whose type is
`MBEDTLS_PK_NONE`. -/
def pkEc (p : Nat) (ctx : Option (PkKey p)) : Option (ZMod p) :=
  match ctx with
  | none => none
  | some key => if key.ktype = PkType.eckey then some key.d else none

/-- Outcome of the detached `Sign`: either the `OT_ASSERT` of line 324 fires
(a fatal abort, not a returned error), or the call returns an error code
together with the output buffer contents and the reported output length. -/
inductive DetachedSignOutcome where
  | assertViolation
  | ret (e : Error) (output : List Nat) (outputLength : Nat)
  deriving DecidableEq

/-- Detached `ot::Crypto::Ecdsa::Sign` (lines 273-353, mbedtls path),
statement by statement: init the pk context, parse the caller's key bytes
into it (failure maps to `kErrorInvalidArgs`), require the parsed key to be
an EC key (`mbedtls_pk_get_type == MBEDTLS_PK_ECKEY`, else
`kErrorInvalidArgs`).  Then line 318 runs `mbedtls_pk_init(&pkCtx)` a
second time, re-initializing the context and discarding the key just
parsed; the `mbedtls_pk_ec` call of line 323 therefore yields null and the
line-324 `OT_ASSERT(keypair != nullptr)` fires.  The continuation of lines
326-341 — randomized `mbedtls_ecdsa_sign` (failure maps to
`kErrorFailed`), the capacity check against `mpi_size(r) + mpi_size(s)`
(else `kErrorNoBufs`), and the natural-width concatenated writes of R then
S with the reported length updated after each write — is embedded
faithfully below the assert, but is unreachable for any parsed EC key.
(This branch of the source is broken beyond the re-init: its teardown at
lines 347-349 names block-scoped locals after their block closes.)
`aOutputLength` is the in-out parameter holding the capacity on entry. -/
def Sign (B : Backend) (aOutput : List Nat) (aOutputLength : Nat)
    (aInputHash : Nat) (aPrivateKey : List Nat) (rng : Nat) :
    DetachedSignOutcome :=
  match B.parseKey aPrivateKey with
  | none => .ret .kErrorInvalidArgs aOutput aOutputLength
  | some key =>
    if key.ktype = PkType.eckey then
      -- line 318: mbedtls_pk_init(&pkCtx) resets the parsed context
      let pkCtx : Option (PkKey B.p) := none
      -- line 323: keypair = mbedtls_pk_ec(pkCtx)
      match pkEc B.p pkCtx with
      | none => .assertViolation
      | some d =>
        match ecdsaSignRand B d aInputHash rng with
        | none => .ret .kErrorFailed aOutput aOutputLength
        | some (r, s) =>
          if mpiSize r + mpiSize s ≤ aOutputLength then
            match mpiWriteBinary (mpiSize r) r with
            | none => .ret .kErrorFailed aOutput aOutputLength
            | some rBytes =>
              match mpiWriteBinary (mpiSize s) s with
              | none => .ret .kErrorFailed
                  (rBytes ++ aOutput.drop rBytes.length) (mpiSize r)
              | some sBytes =>
                .ret .kErrorNone
                  (rBytes ++ sBytes ++ aOutput.drop (rBytes.length + sBytes.length))
                  (mpiSize r + mpiSize s)
          else .ret .kErrorNoBufs aOutput aOutputLength
    else .ret .kErrorInvalidArgs aOutput aOutputLength

/-- Concrete backend instance over the prime-order-5 group model, used to
evaluate the verified operations at concrete inputs. -/
def toyBackend : Backend where
  p := 5
  xcoord := fun k => k
  coords := fun e => (e.val, 0)
  pointOfCoords := fun c => some ((c.1 : Nat) : ZMod 5)
  parseKey := fun l =>
    match l with
    | [v] => if v < 5 then some ⟨PkType.eckey, (v : ZMod 5)⟩ else none
    | [200, v] => some ⟨PkType.rsa, (v : ZMod 5)⟩
    | _ => none
  writeKeyDer := fun e => [e.val]
  genKey := fun _ => 1
  nonce := fun _ _ => 2
  rngNonce := fun _ => 2

/-- Fixed-width encoding always has exactly the requested width. -/
theorem natToBytesBE_length (w n : Nat) : (natToBytesBE w n).length = w := by
  induction w generalizing n with
  | zero => rfl
  | succ w ih => simp [natToBytesBE, ih]

/-- Reading a one-byte extension of a big-endian buffer. -/
theorem mpiReadBinary_append_byte (l : List Nat) (b : Nat) :
    mpiReadBinary (l ++ [b]) = mpiReadBinary l * 256 + b := by
  unfold mpiReadBinary
  rw [List.foldl_append]
  rfl

/-- Reading back a fixed-width encoding recovers the value, provided the
value fits the width. -/
theorem mpiReadBinary_natToBytesBE (w n : Nat) (h : n < 256 ^ w) :
    mpiReadBinary (natToBytesBE w n) = n := by
  induction w generalizing n with
  | zero =>
    have hn : n = 0 := by simpa using Nat.lt_one_iff.mp (by simpa using h)
    subst hn
    rfl
  | succ w ih =>
    have hdiv : n / 256 < 256 ^ w := by
      rw [Nat.div_lt_iff_lt_mul (by norm_num)]
      calc n < 256 ^ (w + 1) := h
        _ = 256 ^ w * 256 := by ring
    rw [show natToBytesBE (w + 1) n = natToBytesBE w (n / 256) ++ [n % 256] from rfl]
    rw [mpiReadBinary_append_byte, ih _ hdiv]
    calc n / 256 * 256 + n % 256 = 256 * (n / 256) + n % 256 := by ring
      _ = n := Nat.div_add_mod n 256

theorem mpiSizeAux_zero (fuel : Nat) : mpiSizeAux fuel 0 = 0 := by
  cases fuel <;> simp [mpiSizeAux]

theorem mpiSizeAux_pos (fuel n : Nat) (hf : fuel ≠ 0) (hn : n ≠ 0) :
    0 < mpiSizeAux fuel n := by
  cases fuel with
  | zero => exact absurd rfl hf
  | succ f => simp [mpiSizeAux, hn]

/-- Any value is below 256 to its byte size (given enough fuel). -/
theorem lt_pow_mpiSizeAux (fuel n : Nat) (h : n ≤ fuel) :
    n < 256 ^ mpiSizeAux fuel n := by
  induction fuel generalizing n with
  | zero =>
    have hn : n = 0 := Nat.le_zero.mp h
    subst hn
    simp [mpiSizeAux]
  | succ f ih =>
    by_cases hn : n = 0
    · subst hn; simp [mpiSizeAux]
    · have h1 : n / 256 ≤ f := by
        have h2 : n / 256 < n := Nat.div_lt_self (Nat.pos_of_ne_zero hn) (by norm_num)
        omega
      have h3 := ih (n / 256) h1
      simp only [mpiSizeAux, hn, if_false]
      rw [pow_succ]
      exact (Nat.div_lt_iff_lt_mul (by norm_num)).mp h3

/-- A nonzero value reaches 256 to one less than its byte size. -/
theorem pow_mpiSizeAux_le (fuel n : Nat) (h : n ≤ fuel) (hn : n ≠ 0) :
    256 ^ (mpiSizeAux fuel n - 1) ≤ n := by
  induction fuel generalizing n with
  | zero => omega
  | succ f ih =>
    simp only [mpiSizeAux, hn, if_false, Nat.add_sub_cancel]
    by_cases hq : n / 256 = 0
    · rw [hq, mpiSizeAux_zero]
      simpa using Nat.pos_of_ne_zero hn
    · have h1 : n / 256 ≤ f := by
        have h2 : n / 256 < n := Nat.div_lt_self (Nat.pos_of_ne_zero hn) (by norm_num)
        omega
      have h2 := ih (n / 256) h1 hq
      have h3 : 0 < mpiSizeAux f (n / 256) := mpiSizeAux_pos f (n / 256) (by omega) hq
      calc 256 ^ mpiSizeAux f (n / 256)
          = 256 ^ (mpiSizeAux f (n / 256) - 1) * 256 := by
            rw [← pow_succ]
            congr 1
            omega
        _ ≤ n / 256 * 256 := Nat.mul_le_mul_right 256 h2
        _ ≤ n := Nat.div_mul_le_self n 256

/-- The byte size is at most `k` exactly when the value fits `k` bytes
(`mbedtls_mpi_size(&x) <= k` versus `x < 256 ^ k`). -/
theorem mpiSize_le_iff (n k : Nat) : mpiSize n ≤ k ↔ n < 256 ^ k := by
  constructor
  · intro h
    exact lt_of_lt_of_le (lt_pow_mpiSizeAux n n le_rfl)
      (Nat.pow_le_pow_right (by norm_num) h)
  · intro h
    by_contra hc
    push_neg at hc
    by_cases hn : n = 0
    · subst hn
      simp [mpiSize, mpiSizeAux_zero] at hc
    · have h1 : 256 ^ (mpiSize n - 1) ≤ n := pow_mpiSizeAux_le n n le_rfl hn
      have h2 : k ≤ mpiSize n - 1 := by
        have := mpiSizeAux_pos n n (by omega) hn
        unfold mpiSize at hc ⊢
        omega
      have h3 : 256 ^ k ≤ 256 ^ (mpiSize n - 1) :=
        Nat.pow_le_pow_right (by norm_num) h2
      omega

theorem mpiWriteBinary_of_lt (width n : Nat) (h : n < 256 ^ width) :
    mpiWriteBinary width n = some (natToBytesBE width n) := by
  simp [mpiWriteBinary, (mpiSize_le_iff n width).mpr h]

theorem mpiWriteBinary_mpiSize (n : Nat) :
    mpiWriteBinary (mpiSize n) n = some (natToBytesBE (mpiSize n) n) := by
  simp [mpiWriteBinary]

/-- First byte of a fixed-width big-endian encoding. -/
theorem natToBytesBE_head? (w n : Nat) (hw : 0 < w) :
    (natToBytesBE w n).head? = some (n / 256 ^ (w - 1) % 256) := by
  induction w generalizing n with
  | zero => omega
  | succ w ih =>
    cases w with
    | zero => simp [natToBytesBE]
    | succ v =>
      rw [show natToBytesBE (v + 1 + 1) n = natToBytesBE (v + 1) (n / 256) ++ [n % 256] from rfl]
      rw [List.head?_append_of_ne_nil _ (by
        intro hnil
        have hlen := natToBytesBE_length (v + 1) (n / 256)
        rw [hnil] at hlen
        simp at hlen)]
      rw [ih (n / 256) (Nat.succ_pos v)]
      congr 1
      rw [Nat.add_sub_cancel, Nat.add_sub_cancel, Nat.div_div_eq_div_mul]
      congr 2
      rw [pow_succ]
      ring

/-- A nonzero value encoded at its natural byte size carries no left-zero
padding: the leading byte is nonzero. -/
theorem natToBytesBE_minimal_head (n : Nat) (hn : n ≠ 0) :
    (natToBytesBE (mpiSize n) n).head? ≠ some 0 := by
  have hpos : 0 < mpiSize n := mpiSizeAux_pos n n (by omega) hn
  rw [natToBytesBE_head? _ n hpos]
  have h1 : 256 ^ (mpiSize n - 1) ≤ n := pow_mpiSizeAux_le n n le_rfl hn
  have h2 : n < 256 ^ mpiSize n := lt_pow_mpiSizeAux n n le_rfl
  have hppos : 0 < 256 ^ (mpiSize n - 1) := Nat.pos_pow_of_pos _ (by norm_num)
  have h3 : 1 ≤ n / 256 ^ (mpiSize n - 1) := by
    rw [Nat.le_div_iff_mul_le hppos]
    simpa using h1
  have h4 : n / 256 ^ (mpiSize n - 1) < 256 := by
    rw [Nat.div_lt_iff_lt_mul hppos]
    calc n < 256 ^ mpiSize n := h2
      _ = 256 * 256 ^ (mpiSize n - 1) := by
        rw [← pow_succ']
        congr 1
        omega
  intro hcontra
  rw [Nat.mod_eq_of_lt h4] at hcontra
  simp at hcontra
  omega

/-- Fermat inverse is a left inverse of any nonzero element mod a prime. -/
theorem zinv_mul_cancel (p : Nat) (hp : p.Prime) (a : ZMod p) (ha : a ≠ 0) :
    zinv p a * a = 1 := by
  haveI : Fact p.Prime := ⟨hp⟩
  unfold zinv
  rw [← pow_succ]
  have h2 : p - 2 + 1 = p - 1 := by
    have := hp.two_le
    omega
  rw [h2]
  exact ZMod.pow_card_sub_one_eq_one ha

theorem zmod_cast_val (p : Nat) [NeZero p] (a : ZMod p) :
    ((a.val : Nat) : ZMod p) = a :=
  (ZMod.natCast_val a).trans (ZMod.cast_id p a)

/-- Scalars produced by `ecdsaSignCore` are nonzero, below the group order,
and satisfy the verification equation of `ecdsaVerifyScalars` for the public
point d·G of the signing key d — the mathematical heart of the
sign/verify round trip. -/
theorem ecdsaSignCore_verifies (B : Backend) (hp : B.p.Prime) (d : ZMod B.p)
    (aHash : Nat) (k : ZMod B.p) (r s : Nat)
    (hc : ecdsaSignCore B d aHash k = some (r, s)) :
    r ≠ 0 ∧ r < B.p ∧ s ≠ 0 ∧ s < B.p ∧
      ecdsaVerifyScalars B d aHash r s = true := by
  haveI : Fact B.p.Prime := ⟨hp⟩
  haveI : NeZero B.p := NeZero.of_pos hp.pos
  simp only [ecdsaSignCore] at hc
  by_cases hk : k = 0
  · simp [hk] at hc
  rw [if_neg hk] at hc
  by_cases hr : B.xcoord k = 0
  · simp [hr] at hc
  rw [if_neg hr] at hc
  by_cases hs : zinv B.p k * ((aHash : ZMod B.p) + B.xcoord k * d) = 0
  · simp [hs] at hc
  rw [if_neg hs] at hc
  have hrv : r = (B.xcoord k).val := by
    have := Option.some.inj hc
    exact (Prod.mk.injEq _ _ _ _ ▸ this).1.symm
  have hsv : s = (zinv B.p k * ((aHash : ZMod B.p) + B.xcoord k * d)).val := by
    have := Option.some.inj hc
    exact (Prod.mk.injEq _ _ _ _ ▸ this).2.symm
  set rz : ZMod B.p := B.xcoord k with hrz
  set sz : ZMod B.p := zinv B.p k * ((aHash : ZMod B.p) + rz * d) with hsz
  have hr0 : r ≠ 0 := by
    rw [hrv]
    intro hcon
    exact hr ((ZMod.val_eq_zero rz).mp hcon)
  have hs0 : s ≠ 0 := by
    rw [hsv]
    intro hcon
    exact hs ((ZMod.val_eq_zero sz).mp hcon)
  have hrlt : r < B.p := hrv ▸ ZMod.val_lt rz
  have hslt : s < B.p := hsv ▸ ZMod.val_lt sz
  refine ⟨hr0, hrlt, hs0, hslt, ?_⟩
  simp only [ecdsaVerifyScalars]
  rw [if_neg (by
    push_neg
    exact ⟨hr0, by omega, hs0, by omega⟩)]
  have hcastr : ((r : Nat) : ZMod B.p) = rz := by
    rw [hrv]
    exact zmod_cast_val B.p rz
  have hcasts : ((s : Nat) : ZMod B.p) = sz := by
    rw [hsv]
    exact zmod_cast_val B.p sz
  rw [decide_eq_true_eq, hcastr, hcasts]
  have e1 : zinv B.p k * k = 1 := zinv_mul_cancel B.p hp k hk
  have e2 : zinv B.p sz * sz = 1 := zinv_mul_cancel B.p hp sz hs
  have e3 : (aHash : ZMod B.p) + rz * d = k * sz := by
    rw [hsz]
    calc (aHash : ZMod B.p) + rz * d
        = 1 * ((aHash : ZMod B.p) + rz * d) := by ring
      _ = zinv B.p k * k * ((aHash : ZMod B.p) + rz * d) := by rw [e1]
      _ = k * (zinv B.p k * ((aHash : ZMod B.p) + rz * d)) := by ring
  have key : (aHash : ZMod B.p) * zinv B.p sz + rz * zinv B.p sz * d = k := by
    calc (aHash : ZMod B.p) * zinv B.p sz + rz * zinv B.p sz * d
        = ((aHash : ZMod B.p) + rz * d) * zinv B.p sz := by ring
      _ = k * sz * zinv B.p sz := by rw [e3]
      _ = k * (zinv B.p sz * sz) := by ring
      _ = k := by rw [e2, mul_one]
  rw [key]

theorem take_append_of_length (l1 l2 : List Nat) (n : Nat) (h : l1.length = n) :
    (l1 ++ l2).take n = l1 := by
  subst h
  exact List.take_left l1 l2

theorem drop_append_of_length (l1 l2 : List Nat) (n : Nat) (h : l1.length = n) :
    (l1 ++ l2).drop n = l2 := by
  subst h
  exact List.drop_left l1 l2

/-- Unfolding `ecdsaSignDetExt`. -/
theorem ecdsaSignDetExt_eq (B : Backend) (d : ZMod B.p) (aHash rng : Nat) :
    ecdsaSignDetExt B d aHash rng = ecdsaSignCore B d aHash (B.nonce d aHash) := rfl

/-- Unfolding `ecdsaSignRand`. -/
theorem ecdsaSignRand_eq (B : Backend) (d : ZMod B.p) (aHash rng : Nat) :
    ecdsaSignRand B d aHash rng = ecdsaSignCore B d aHash (B.rngNonce rng) := rfl

/-- Inversion of a successful fixed-width `P256::KeyPair::Sign`: the backend
produced scalars that fit the fixed width and the signature holds their
fixed-width encodings. -/
theorem keyPairSign_ok_inversion (B : Backend) (kp : P256.KeyPair)
    (aHash rng : Nat) (sig0 sig : P256.Signature) (key : PkKey B.p)
    (hparse : B.parseKey kp.mDerBytes = some key)
    (hs : P256.KeyPair.Sign B true kp aHash rng sig0 = (.ok, sig)) :
    ∃ r s, ecdsaSignDetExt B key.d aHash rng = some (r, s) ∧
      r < 256 ^ kMpiSize ∧ s < 256 ^ kMpiSize ∧
      sig = ⟨natToBytesBE kMpiSize r, natToBytesBE kMpiSize s⟩ := by
  simp only [P256.KeyPair.Sign, P256.KeyPair.Parse, if_true, hparse] at hs
  cases hdet : ecdsaSignDetExt B key.d aHash rng with
  | none => rw [hdet] at hs; simp at hs
  | some rs =>
    obtain ⟨r, s⟩ := rs
    rw [hdet] at hs
    refine ⟨r, s, rfl, ?_⟩
    simp only [writeSignatureMpis, mpiWriteBinary] at hs
    by_cases h1 : mpiSize r ≤ kMpiSize
    · rw [if_pos h1, if_pos h1] at hs
      by_cases h2 : mpiSize s ≤ kMpiSize
      · rw [if_pos h2] at hs
        refine ⟨(mpiSize_le_iff r kMpiSize).mp h1, (mpiSize_le_iff s kMpiSize).mp h2, ?_⟩
        exact ((Prod.mk.injEq _ _ _ _ ▸ hs).2).symm
      · rw [if_neg h2] at hs
        simp at hs
    · rw [if_neg h1] at hs
      simp at hs

/-- With a parsable key whose public coordinates fit the fixed width,
`GetPublicKey` succeeds and yields their fixed-width encodings. -/
theorem getPublicKey_ok_inversion (B : Backend) (kp : P256.KeyPair)
    (key : PkKey B.p) (hparse : B.parseKey kp.mDerBytes = some key)
    (hx : (B.coords key.d).1 < 256 ^ kMpiSize)
    (hy : (B.coords key.d).2 < 256 ^ kMpiSize) :
    P256.KeyPair.GetPublicKey B true kp =
      .ok ⟨natToBytesBE kMpiSize (B.coords key.d).1 ++
           natToBytesBE kMpiSize (B.coords key.d).2⟩ := by
  simp only [P256.KeyPair.GetPublicKey, P256.KeyPair.Parse, if_true, hparse,
    mpiWriteBinary_of_lt _ _ hx, mpiWriteBinary_of_lt _ _ hy]

/-- A fixed-width-encoded public key and signature verify exactly when the
backend check of the decoded values passes. -/
theorem verify_of_point (B : Backend) (x y r s aHash : Nat)
    (hx : x < 256 ^ kMpiSize) (hy : y < 256 ^ kMpiSize)
    (hr : r < 256 ^ kMpiSize) (hs : s < 256 ^ kMpiSize)
    (hcheck : ecdsaVerifyPoint B x y aHash r s = true) :
    P256.PublicKey.Verify B
      ⟨natToBytesBE kMpiSize x ++ natToBytesBE kMpiSize y⟩ aHash
      ⟨natToBytesBE kMpiSize r, natToBytesBE kMpiSize s⟩ = .kErrorNone := by
  simp only [P256.PublicKey.Verify]
  rw [take_append_of_length _ _ _ (natToBytesBE_length kMpiSize x),
    drop_append_of_length _ _ _ (natToBytesBE_length kMpiSize x),
    mpiReadBinary_natToBytesBE _ _ hx, mpiReadBinary_natToBytesBE _ _ hy,
    mpiReadBinary_natToBytesBE _ _ hr, mpiReadBinary_natToBytesBE _ _ hs,
    hcheck]
  simp [VerifyFlow]

/-- The fixed-width write step never reports `kErrorParse`. -/
theorem writeSignatureMpis_fst_ne_parse (r s : Nat) (sig : P256.Signature) :
    (writeSignatureMpis r s sig).1 ≠ SignOutcome.err Error.kErrorParse := by
  simp only [writeSignatureMpis, mpiWriteBinary]
  split_ifs <;> simp [MapError, MBEDTLS_ERR_MPI_BUFFER_TOO_SMALL]

/-- If the fixed-width `Sign` reports `kErrorParse`, it came from `Parse`. -/
theorem keyPairSign_parse_error_source (B : Backend) (setupOk : Bool)
    (kp : P256.KeyPair) (aHash rng : Nat) (sig0 : P256.Signature)
    (h : (P256.KeyPair.Sign B setupOk kp aHash rng sig0).1 =
      SignOutcome.err Error.kErrorParse) :
    P256.KeyPair.Parse B setupOk kp = .err .kErrorParse := by
  unfold P256.KeyPair.Sign at h
  split at h
  case h_1 e heq =>
    simp at h
    rw [heq, h]
  case h_2 key heq =>
    split at h
    case h_1 => simp [MapError, MBEDTLS_ERR_ECP_BAD_INPUT_DATA] at h
    case h_2 r s hdet => exact absurd h (writeSignatureMpis_fst_ne_parse r s sig0)

/-- If `GetPublicKey` reports `kErrorParse`, it came from `Parse`. -/
theorem getPublicKey_parse_error_source (B : Backend) (setupOk : Bool)
    (kp : P256.KeyPair)
    (h : P256.KeyPair.GetPublicKey B setupOk kp = .err .kErrorParse) :
    P256.KeyPair.Parse B setupOk kp = .err .kErrorParse := by
  unfold P256.KeyPair.GetPublicKey at h
  split at h
  case h_1 e heq =>
    simp at h
    rw [heq, h]
  case h_2 key heq =>
    split at h
    case h_1 => simp [MapError, MBEDTLS_ERR_MPI_BUFFER_TOO_SMALL] at h
    case h_2 xBytes hx =>
      split at h
      case h_1 => simp [MapError, MBEDTLS_ERR_MPI_BUFFER_TOO_SMALL] at h
      case h_2 yBytes hy => simp at h

/-- A successful `Generate` stores exactly the DER serialization of the
freshly drawn private scalar, with a length within the buffer cap. -/
theorem generate_ok_inversion (B : Backend) (setupRet genRet : Int)
    (seed : Nat) (kp : P256.KeyPair)
    (hgen : P256.KeyPair.Generate B setupRet genRet seed = .ok kp) :
    kp.mDerBytes = B.writeKeyDer (B.genKey seed) ∧
      0 < kp.mDerBytes.length ∧ kp.mDerBytes.length ≤ kMaxDerSize := by
  unfold P256.KeyPair.Generate at hgen
  by_cases h1 : setupRet ≠ 0
  · rw [if_pos h1] at hgen
    simp at hgen
  rw [if_neg h1] at hgen
  by_cases h2 : genRet ≠ 0
  · rw [if_pos h2] at hgen
    simp at hgen
  rw [if_neg h2] at hgen
  by_cases h3 : 0 < (B.writeKeyDer (B.genKey seed)).length ∧
      (B.writeKeyDer (B.genKey seed)).length ≤ kMaxDerSize
  · rw [if_pos h3] at hgen
    have hkp : kp = ⟨B.writeKeyDer (B.genKey seed)⟩ := (OtResult.ok.inj hgen).symm
    subst hkp
    exact ⟨rfl, h3⟩
  · rw [if_neg h3] at hgen
    simp at hgen

/-- For every key container that parses as an EC key, the detached `Sign`
aborts at the line-324 assertion: the line-318 re-init makes
`mbedtls_pk_ec` yield null unconditionally, so the signing, capacity-check
and write code below it is dead for exactly the inputs it was written
for. -/
theorem detachedSign_asserts_on_ec_key (B : Backend) (aOutput : List Nat)
    (aOutputLength aHash rng : Nat) (aPrivateKey : List Nat) (key : PkKey B.p)
    (hparse : B.parseKey aPrivateKey = some key)
    (htype : key.ktype = PkType.eckey) :
    Sign B aOutput aOutputLength aHash aPrivateKey rng =
      DetachedSignOutcome.assertViolation := by
  simp [Sign, hparse, htype, pkEc]

/-- C2: for a fixed key pair and fixed digest, the fixed-width
`P256::KeyPair::Sign` yields byte-identical results on any two calls — its
result does not depend on the prng state, because the nonce of
`mbedtls_ecdsa_sign_det_ext` is derived deterministically from key and
message per RFC 6979 (the prng argument only feeds blinding). -/
theorem keyPairSign_deterministic (B : Backend) (setupOk : Bool)
    (kp : P256.KeyPair) (aHash rng1 rng2 : Nat) (sig0 : P256.Signature) :
    P256.KeyPair.Sign B setupOk kp aHash rng1 sig0 =
      P256.KeyPair.Sign B setupOk kp aHash rng2 sig0 := rfl

/-- C3 counterexample: when the backend returns an S of 33 bytes (with a
small R), the fixed-width signing path does NOT trigger the assertion — the
failed 32-byte write of S is folded through `MbedTls::MapError` into a
recoverable returned error.  The claim that the abort-on-invariant-break
applies to both R and S is false for S. -/
theorem wide_s_is_recoverable_not_assert :
    (writeSignatureMpis 1 (256 ^ kMpiSize) ⟨[], []⟩).1 =
      SignOutcome.err Error.kErrorFailed ∧
    (writeSignatureMpis 1 (256 ^ kMpiSize) ⟨[], []⟩).1 ≠
      SignOutcome.assertViolation := by
  decide

/-- C3 amended: in the fixed-width signing path, only a too-wide R triggers
the assertion (`OT_ASSERT(mbedtls_mpi_size(&r) <= kMpiSize)`, before the
writes); a too-wide S with an in-range R is instead reported as a
recoverable backend error (the mapped `mbedtls_mpi_write_binary` failure),
returned to the caller. -/
theorem writeSignatureMpis_wide_scalars (r s : Nat) (sig : P256.Signature) :
    (256 ^ kMpiSize ≤ r →
      (writeSignatureMpis r s sig).1 = SignOutcome.assertViolation) ∧
    (r < 256 ^ kMpiSize → 256 ^ kMpiSize ≤ s →
      (writeSignatureMpis r s sig).1 = SignOutcome.err Error.kErrorFailed) := by
  constructor
  · intro h
    have hr : ¬ mpiSize r ≤ kMpiSize := by
      rw [mpiSize_le_iff]
      omega
    unfold writeSignatureMpis
    rw [if_neg hr]
  · intro h1 h2
    have hr : mpiSize r ≤ kMpiSize := (mpiSize_le_iff r kMpiSize).mpr h1
    have hs : ¬ mpiSize s ≤ kMpiSize := by
      rw [mpiSize_le_iff]
      omega
    simp only [writeSignatureMpis, mpiWriteBinary]
    rw [if_pos hr, if_pos hr, if_neg hs]
    simp [MapError, MBEDTLS_ERR_MPI_BUFFER_TOO_SMALL]

/-- Witness for the C3 amended theorem at concrete scalars: a 33-byte R
aborts; a 33-byte S with R = 0 yields the recoverable backend error. -/
theorem writeSignatureMpis_wide_scalars_witness :
    (writeSignatureMpis (256 ^ kMpiSize) 0 ⟨[], []⟩).1 =
      SignOutcome.assertViolation ∧
    (writeSignatureMpis 0 (256 ^ kMpiSize) ⟨[], []⟩).1 =
      SignOutcome.err Error.kErrorFailed :=
  ⟨(writeSignatureMpis_wide_scalars (256 ^ kMpiSize) 0 ⟨[], []⟩).1 (by decide),
   (writeSignatureMpis_wide_scalars 0 (256 ^ kMpiSize) ⟨[], []⟩).2
     (by decide) (by decide)⟩

/-- C4: `P256::PublicKey::Verify` returns `kErrorSecurity` (SignatureInvalid)
exactly when the calls before `mbedtls_ecdsa_verify` all succeed and the
verification call itself rejects; any failure of the earlier backend calls
(group load, coordinate/scalar loads) is folded through `MbedTls::MapError`
into `kErrorFailed` (CryptoBackendError), a kind distinct from
`kErrorSecurity`. -/
theorem verifyFlow_security_characterisation (g x y z r s v : Int) :
    (VerifyFlow g x y z r s v = Error.kErrorSecurity ↔
      (g = 0 ∧ x = 0 ∧ y = 0 ∧ z = 0 ∧ r = 0 ∧ s = 0 ∧ v ≠ 0)) ∧
    (¬ (g = 0 ∧ x = 0 ∧ y = 0 ∧ z = 0 ∧ r = 0 ∧ s = 0) →
      VerifyFlow g x y z r s v = Error.kErrorFailed) := by
  unfold VerifyFlow MapError
  split_ifs <;> simp_all

/-- Witness for C4: a rejecting verification call yields `kErrorSecurity`,
and a failing coordinate load yields `kErrorFailed`. -/
theorem verifyFlow_security_characterisation_witness :
    VerifyFlow 0 0 0 0 0 0 (-19968) = Error.kErrorSecurity ∧
    VerifyFlow 0 (-8) 0 0 0 0 0 = Error.kErrorFailed :=
  ⟨(verifyFlow_security_characterisation 0 0 0 0 0 0 (-19968)).1.mpr
     (by simp),
   (verifyFlow_security_characterisation 0 (-8) 0 0 0 0 0).2 (by simp)⟩

/-- C7: when the stored private-key bytes cannot be parsed as a valid EC key
(after a successful backend setup), both the fixed-width
`P256::KeyPair::Sign` and `P256::KeyPair::GetPublicKey` return
`kErrorParse` (KeyParseError), leaving the signature out-parameter
untouched — never `kErrorFailed` and never a crash. -/
theorem keyPair_unparsable_key_errors (B : Backend) (kp : P256.KeyPair)
    (hbad : B.parseKey kp.mDerBytes = none) (aHash rng : Nat)
    (sig0 : P256.Signature) :
    P256.KeyPair.Sign B true kp aHash rng sig0 =
      (SignOutcome.err Error.kErrorParse, sig0) ∧
    P256.KeyPair.GetPublicKey B true kp = OtResult.err Error.kErrorParse := by
  constructor
  · simp [P256.KeyPair.Sign, P256.KeyPair.Parse, hbad]
  · simp [P256.KeyPair.GetPublicKey, P256.KeyPair.Parse, hbad]

/-- Witness for C7 at a concrete two-byte container the parser rejects. -/
theorem keyPair_unparsable_key_errors_witness :
    P256.KeyPair.Sign toyBackend true ⟨[9, 9]⟩ 1 0 ⟨[7], [8]⟩ =
      (SignOutcome.err Error.kErrorParse, ⟨[7], [8]⟩) ∧
    P256.KeyPair.GetPublicKey toyBackend true ⟨[9, 9]⟩ =
      OtResult.err Error.kErrorParse :=
  keyPair_unparsable_key_errors toyBackend ⟨[9, 9]⟩ (by decide) 1 0 ⟨[7], [8]⟩

/-- C8: the detached `Sign` entry point rejects any parsed key that is not
an EC key with `kErrorInvalidArgs` (InvalidArgument), before signing, for
every digest and output buffer — which are returned untouched.  The
type check at line 294 precedes the broken re-init of line 318, so non-EC
inputs never reach it. -/
theorem detachedSign_rejects_non_ec_key (B : Backend) (aOutput : List Nat)
    (cap aHash rng : Nat) (aPrivateKey : List Nat) (key : PkKey B.p)
    (hparse : B.parseKey aPrivateKey = some key)
    (htype : key.ktype ≠ PkType.eckey) :
    Sign B aOutput cap aHash aPrivateKey rng =
      DetachedSignOutcome.ret Error.kErrorInvalidArgs aOutput cap := by
  simp [Sign, hparse, htype]

/-- Witness for C8 at a concrete container parsing to an RSA key. -/
theorem detachedSign_rejects_non_ec_key_witness :
    Sign toyBackend [3, 3] 2 1 [200, 1] 2 =
      DetachedSignOutcome.ret Error.kErrorInvalidArgs [3, 3] 2 :=
  detachedSign_rejects_non_ec_key toyBackend [3, 3] 2 1 2 [200, 1]
    ⟨PkType.rsa, 1⟩ (by decide) (by decide)

/-- C9: whenever the fixed-width `P256::KeyPair::Sign` fails because the
stored key material does not parse, the caller's signature out-parameter is
returned completely unchanged — no byte of R or S has been written. -/
theorem keyPairSign_parse_failure_output_untouched (B : Backend)
    (setupOk : Bool) (kp : P256.KeyPair) (aHash rng : Nat)
    (sig0 : P256.Signature)
    (hfail : P256.KeyPair.Parse B setupOk kp = .err .kErrorParse) :
    P256.KeyPair.Sign B setupOk kp aHash rng sig0 =
      (SignOutcome.err Error.kErrorParse, sig0) := by
  simp [P256.KeyPair.Sign, hfail]

/-- Witness for C9 at a concrete unparsable container. -/
theorem keyPairSign_parse_failure_output_untouched_witness :
    P256.KeyPair.Sign toyBackend true ⟨[]⟩ 1 0 ⟨[7], [8]⟩ =
      (SignOutcome.err Error.kErrorParse, ⟨[7], [8]⟩) :=
  keyPairSign_parse_failure_output_untouched toyBackend true ⟨[]⟩ 1 0
    ⟨[7], [8]⟩ (by decide)

/-- C5: evaluating the embedded detached `Sign` at the claim's scenario —
the valid EC key container `[1]`, digest 1, and a 1-byte output buffer —
the call aborts at the line-324 assertion (the line-318 re-init discarded
the parsed key) and in particular does not return `kErrorNoBufs`.  The
capacity check of line 332 that would produce the claimed BufferTooSmall
behavior is present in the source and in the embedding, but is unreachable
in this build path. -/
theorem detachedSign_buffer_too_small_bug :
    Sign toyBackend [0] 1 1 [1] 2 = DetachedSignOutcome.assertViolation ∧
    Sign toyBackend [0] 1 1 [1] 2 ≠
      DetachedSignOutcome.ret Error.kErrorNoBufs [0] 1 := by
  decide

/-- C6: with an ample 4-byte buffer the call aborts at the line-324
assertion all the same, and in particular does not return the claimed
natural-width success output: the success path of lines 332-341 (present
and embedded) is unreachable for every parsed EC key in this build path. -/
theorem detachedSign_natural_width_bug :
    Sign toyBackend [9, 9, 9, 9] 4 1 [1] 2 =
      DetachedSignOutcome.assertViolation ∧
    Sign toyBackend [9, 9, 9, 9] 4 1 [1] 2 ≠
      DetachedSignOutcome.ret Error.kErrorNone [2, 4, 9, 9] 2 := by
  decide

/-- C10: a key pair returned by a successful `Generate` stores a DER
encoding within the fixed buffer cap which `mbedtls_pk_parse_key` accepts
(as the EC key just drawn), so neither `GetPublicKey` nor the fixed-width
`Sign` on a freshly generated key pair can fail with `kErrorParse`.
The coherence of the external serializer and parser
(`parse ∘ writeKeyDer = id`) is the spec's collaborator contract, supplied
as the hypothesis `hcoh`. -/
theorem generate_key_always_parses (B : Backend)
    (hcoh : ∀ e : ZMod B.p,
      B.parseKey (B.writeKeyDer e) = some ⟨PkType.eckey, e⟩)
    (setupRet genRet : Int) (seed : Nat) (kp : P256.KeyPair)
    (hgen : P256.KeyPair.Generate B setupRet genRet seed = .ok kp) :
    kp.mDerBytes.length ≤ kMaxDerSize ∧
    B.parseKey kp.mDerBytes = some ⟨PkType.eckey, B.genKey seed⟩ ∧
    (∀ so : Bool,
      P256.KeyPair.GetPublicKey B so kp ≠ OtResult.err Error.kErrorParse) ∧
    (∀ (so : Bool) (aHash rng : Nat) (sig0 : P256.Signature),
      (P256.KeyPair.Sign B so kp aHash rng sig0).1 ≠
        SignOutcome.err Error.kErrorParse) := by
  obtain ⟨hder, hpos, hle⟩ := generate_ok_inversion B setupRet genRet seed kp hgen
  have hparse : B.parseKey kp.mDerBytes = some ⟨PkType.eckey, B.genKey seed⟩ := by
    rw [hder]
    exact hcoh _
  have hParseOp : ∀ so : Bool, P256.KeyPair.Parse B so kp ≠ .err .kErrorParse := by
    intro so
    cases so with
    | false => simp [P256.KeyPair.Parse]
    | true => simp [P256.KeyPair.Parse, hparse]
  refine ⟨hle, hparse, ?_, ?_⟩
  · intro so hcon
    exact hParseOp so (getPublicKey_parse_error_source B so kp hcon)
  · intro so aHash rng sig0 hcon
    exact hParseOp so (keyPairSign_parse_error_source B so kp aHash rng sig0 hcon)

/-- Witness for C10: the freshly generated toy key pair stores a parsable
cap-sized DER encoding. -/
theorem generate_key_always_parses_witness :
    toyBackend.parseKey (P256.KeyPair.mDerBytes ⟨[1]⟩) =
      some ⟨PkType.eckey, toyBackend.genKey 7⟩ :=
  (generate_key_always_parses toyBackend
    (by decide : ∀ e : ZMod 5, toyBackend.parseKey (toyBackend.writeKeyDer e) =
      some ⟨PkType.eckey, e⟩)
    0 0 7 ⟨[1]⟩ (by decide)).2.1

/-- C1: for any key pair produced by a successful `Generate` and any 32-byte
digest, a successful fixed-width `P256::KeyPair::Sign` produces a signature
that `P256::PublicKey::Verify` accepts against the public key obtained from
`P256::KeyPair::GetPublicKey`.  The backend coherence facts (prime group
order, coordinates fitting the field width, point reconstruction inverting
coordinate extraction, parser inverting serialization) are the spec's
collaborator contract. -/
theorem sign_verify_roundtrip (B : Backend) (hprime : B.p.Prime)
    (hcoords : ∀ e : ZMod B.p, (B.coords e).1 < 256 ^ kMpiSize ∧
      (B.coords e).2 < 256 ^ kMpiSize)
    (hpoint : ∀ e : ZMod B.p,
      B.pointOfCoords ((B.coords e).1, (B.coords e).2) = some e)
    (hcoh : ∀ e : ZMod B.p,
      B.parseKey (B.writeKeyDer e) = some ⟨PkType.eckey, e⟩)
    (setupRet genRet : Int) (seed : Nat) (kp : P256.KeyPair)
    (hgen : P256.KeyPair.Generate B setupRet genRet seed = .ok kp)
    (aHash : Nat) (hdigest : aHash < 256 ^ kMpiSize)
    (rng : Nat) (sig0 sig : P256.Signature)
    (hsig : P256.KeyPair.Sign B true kp aHash rng sig0 = (.ok, sig))
    (pub : P256.PublicKey)
    (hpub : P256.KeyPair.GetPublicKey B true kp = .ok pub) :
    P256.PublicKey.Verify B pub aHash sig = Error.kErrorNone := by
  obtain ⟨hder, -, -⟩ := generate_ok_inversion B setupRet genRet seed kp hgen
  have hparse : B.parseKey kp.mDerBytes = some ⟨PkType.eckey, B.genKey seed⟩ := by
    rw [hder]
    exact hcoh _
  obtain ⟨r, s, hdet, hrlt, hslt, hsigeq⟩ := keyPairSign_ok_inversion B kp
    aHash rng sig0 sig ⟨PkType.eckey, B.genKey seed⟩ hparse hsig
  have hcore : ecdsaSignCore B (B.genKey seed) aHash
      (B.nonce (B.genKey seed) aHash) = some (r, s) := hdet
  obtain ⟨hr0, hrp, hs0, hsp, hcheck⟩ := ecdsaSignCore_verifies B hprime
    (B.genKey seed) aHash (B.nonce (B.genKey seed) aHash) r s hcore
  have hpubeq : pub = ⟨natToBytesBE kMpiSize (B.coords (B.genKey seed)).1 ++
      natToBytesBE kMpiSize (B.coords (B.genKey seed)).2⟩ := by
    have h2 := getPublicKey_ok_inversion B kp ⟨PkType.eckey, B.genKey seed⟩
      hparse (hcoords _).1 (hcoords _).2
    rw [h2] at hpub
    exact (OtResult.ok.inj hpub).symm
  subst hsigeq
  subst hpubeq
  refine verify_of_point B _ _ r s aHash (hcoords _).1 (hcoords _).2 hrlt hslt ?_
  unfold ecdsaVerifyPoint
  rw [hpoint]
  exact hcheck

/-- Witness for C1: the toy backend's generated key signs digest 1 into
(R, S) = (2, 4), whose fixed-width encoding verifies against the extracted
public key. -/
theorem sign_verify_roundtrip_witness :
    P256.PublicKey.Verify toyBackend
      ⟨natToBytesBE kMpiSize 1 ++ natToBytesBE kMpiSize 0⟩ 1
      ⟨natToBytesBE kMpiSize 2, natToBytesBE kMpiSize 4⟩ = Error.kErrorNone :=
  sign_verify_roundtrip toyBackend (by decide)
    (by decide : ∀ e : ZMod 5, (toyBackend.coords e).1 < 256 ^ kMpiSize ∧
      (toyBackend.coords e).2 < 256 ^ kMpiSize)
    (by decide : ∀ e : ZMod 5,
      toyBackend.pointOfCoords ((toyBackend.coords e).1, (toyBackend.coords e).2) = some e)
    (by decide : ∀ e : ZMod 5, toyBackend.parseKey (toyBackend.writeKeyDer e) =
      some ⟨PkType.eckey, e⟩)
    0 0 7 ⟨[1]⟩ (by decide) 1 (by decide) 0 ⟨[], []⟩
    ⟨natToBytesBE kMpiSize 2, natToBytesBE kMpiSize 4⟩ (by decide)
    ⟨natToBytesBE kMpiSize 1 ++ natToBytesBE kMpiSize 0⟩ (by decide)

end Ecdsa
